import Mathlib

/-!
Shallow embedding of the client-server entity synchronization framework
(client prediction / reconciliation, interpolation, server lag compensation,
in-memory transport). Pure functions are translated directly; stateful
methods become explicit state-passing functions; code that throws returns
`Option` (with `none` for a thrown error). JS `number` timestamps are
modelled as `ℚ`; sequence numbers as `ℕ`.
-/

namespace GameSync

/-! JS `Map` is modelled as an insertion-ordered association list.
`Map.set` overwrites in place when the key exists, otherwise appends;
`Map.delete` removes the (unique) entry; `Map.get` returns the value or
`undefined` (here `none`). -/

def mapGet {K A : Type} [DecidableEq K] : List (K × A) → K → Option A
  | [], _ => none
  | (k, a) :: rest, key => if k = key then some a else mapGet rest key

def mapSet {K A : Type} [DecidableEq K] : List (K × A) → K → A → List (K × A)
  | [], key, a => [(key, a)]
  | (k, b) :: rest, key, a =>
    if k = key then (key, a) :: rest else (k, b) :: mapSet rest key a

def mapDelete {K A : Type} [DecidableEq K] : List (K × A) → K → List (K × A)
  | [], _ => []
  | (k, a) :: rest, key => if k = key then rest else (k, a) :: mapDelete rest key

theorem mapGet_mapSet_self {K A : Type} [DecidableEq K] (m : List (K × A)) (key : K) (a : A) :
    mapGet (mapSet m key a) key = some a := by
  induction m with
  | nil => simp [mapSet, mapGet]
  | cons p rest ih =>
    obtain ⟨k, b⟩ := p
    by_cases hk : k = key
    · simp [mapSet, mapGet, hk]
    · simp [mapSet, mapGet, hk, ih]

theorem mapGet_mapSet_ne {K A : Type} [DecidableEq K] (m : List (K × A)) (key key2 : K) (a : A)
    (h : key ≠ key2) : mapGet (mapSet m key a) key2 = mapGet m key2 := by
  induction m with
  | nil => simp [mapSet, mapGet, h]
  | cons p rest ih =>
    obtain ⟨k, b⟩ := p
    by_cases hk : k = key
    · subst hk
      simp [mapSet, mapGet, h]
    · by_cases hk2 : k = key2 <;> simp [mapSet, mapGet, hk, hk2, ih, Ne.symm h]

theorem mapGet_some_any {K A : Type} [DecidableEq K] (m : List (K × A)) (key : K) (a : A)
    (h : mapGet m key = some a) : m.any (fun p => decide (p.1 = key)) = true := by
  induction m with
  | nil => simp [mapGet] at h
  | cons p rest ih =>
    obtain ⟨k, b⟩ := p
    by_cases hk : k = key
    · simp [hk]
    · simp [mapGet, hk] at h
      simpa [hk] using ih h

/-! `decrementOrRemove` and `increment` from
`src/networking/in-memory-client-server-network.ts` (also present verbatim in
the unnamed network source file). The map value type is `Int`, mirroring the
JS `number` count. A missing key is a thrown error (`none`). -/

def decrementOrRemove {K : Type} [DecidableEq K] (map : List (K × Int)) (key : K) :
    Option (List (K × Int)) :=
  match mapGet map key with
  | none => none
  | some value =>
    let afterMaybeDelete := if value = 1 then mapDelete map key else map
    some (mapSet afterMaybeDelete key (value - 1))

def increment {K : Type} [DecidableEq K] (map : List (K × Int)) (key : K) : List (K × Int) :=
  match mapGet map key with
  | none => mapSet map key 1
  | some value => mapSet map key (value + 1)

/-! Timestamped values and the server history buffer. -/

structure Timestamped (State : Type) where
  timestamp : ℚ
  value : State
deriving DecidableEq

/-- Modelled from the spec: the file `timestamped-buffer.ts` is not among the
provided sources (only its importer `lag-compensator.ts` is). Per the spec,
the buffer is an ordered sequence of `(timestamp, state)` with strictly
increasing timestamps, and `slice(fromTs)` returns the entries with
`timestamp ≥ fromTs` in ascending order. -/
def slice {State : Type} (buffer : List (Timestamped State)) (fromTs : ℚ) :
    List (Timestamped State) :=
  buffer.filter (fun e => decide (fromTs ≤ e.timestamp))

/-- Modelled from the spec: `rewrite(ts, state)` fails (`NoSuchTimestamp`)
when no entry has exactly timestamp `ts`, and otherwise replaces that entry's
state in place, keeping the timestamp. -/
def rewrite {State : Type} : List (Timestamped State) → ℚ → State →
    Option (List (Timestamped State))
  | [], _, _ => none
  | e :: rest, ts, s =>
    if e.timestamp = ts then some (⟨ts, s⟩ :: rest)
    else (rewrite rest ts s).map (fun r => e :: r)

/-! The lag compensator, from
`src/networking/lag-compensation/lag-compensator.ts`. A client request
extends `LcRequest` (a `timestamp` plus whatever payload the game defines).
The validator receives the request together with the validation context
(server history and client latency). -/

structure ResimulationContext (State : Type) where
  oldPreviousState : Timestamped State
  newPreviousState : Timestamped State
  oldCurrentState : Timestamped State

structure LcRequest (Payload : Type) where
  timestamp : ℚ
  payload : Payload

structure LagCompensator (State Payload : Type) where
  resimmer : ResimulationContext State → State
  requestApplicator : State → LcRequest Payload → State
  requestValidator : LcRequest Payload → List (Timestamped State) → ℚ → Bool

/-- The `for` loop inside `LagCompensator.resimulate`: walking the remaining
old frames while carrying the previous old frame and the previous newly
computed frame. -/
def resimulateLoop {State Payload : Type} (lc : LagCompensator State Payload) :
    Timestamped State → Timestamped State → List (Timestamped State) →
    List (Timestamped State)
  | _, _, [] => []
  | oldPrev, newPrev, cur :: rest =>
    let newState := lc.resimmer ⟨oldPrev, newPrev, cur⟩
    ⟨cur.timestamp, newState⟩ :: resimulateLoop lc cur ⟨cur.timestamp, newState⟩ rest

/-- `LagCompensator.resimulate`. The source indexes `history[0]`; its only
caller guarantees the history slice is non-empty, so the `[]` case is
unreachable there. -/
def resimulate {State Payload : Type} (lc : LagCompensator State Payload)
    (history : List (Timestamped State)) (firstStateAfterCompensation : State) :
    List (Timestamped State) :=
  match history with
  | [] => []
  | h0 :: rest =>
    ⟨h0.timestamp, firstStateAfterCompensation⟩ ::
      resimulateLoop lc h0 ⟨h0.timestamp, firstStateAfterCompensation⟩ rest

/-- `LagCompensator.processRequest`. Returns the acceptance flag together
with the (possibly rewritten) server history; `none` models a thrown error
(a failing `rewrite`, which cannot occur for slices of the history itself). -/
def processRequest {State Payload : Type} (lc : LagCompensator State Payload)
    (request : LcRequest Payload) (serverHistory : List (Timestamped State))
    (clientLatency : ℚ) : Option (Bool × List (Timestamped State)) :=
  match slice serverHistory request.timestamp with
  | [] => some (false, serverHistory)
  | gameStateAtRequestedTime :: restOfHistory =>
    if lc.requestValidator request serverHistory clientLatency then
      let stateAfterCompensation := lc.requestApplicator gameStateAtRequestedTime.value request
      let resimulatedStates :=
        resimulate lc (gameStateAtRequestedTime :: restOfHistory) stateAfterCompensation
      (resimulatedStates.foldlM (fun h st => rewrite h st.timestamp st.value) serverHistory).map
        (fun h => (true, h))
    else
      some (false, serverHistory)

/-! The in-memory network, from
`src/networking/in-memory-client-server-network.ts`. Each enqueued batch is
stored together with the time the side maps record for it (`readyAtMs` for
client-sent batches, the send time for server-sent batches); those maps are
keyed by the batch object and are written exactly once, at `send`, so storing
the recorded time with the queued batch is equivalent. Server-sent batches
additionally maintain a reference count keyed by the batch. -/

structure TimedBatch (M : Type) where
  time : ℚ
  msgs : List M
deriving DecidableEq

structure NetworkState (C Sv : Type) where
  clientSentMessageQueues : List (List (TimedBatch C))
  serverSentMessageQueues : List (List (TimedBatch Sv))
  serverSentMessageReferenceCounts : List (List Sv × Int)
deriving DecidableEq

inductive NetworkEvent (C Sv : Type) where
  | clientSentMessages (messages : List C)
  | serverSentMessages (messages : List Sv)
deriving DecidableEq

/-- The `send` closure of `getNewConnectionToServer`: an empty batch returns
immediately; a missing input queue throws (`none`); otherwise the batch is
enqueued with ready time `now + lagMs` and `clientSentMessages` is emitted. -/
def connectionToServerSend {C Sv : Type} (now lagMs : ℚ) (clientIndex : ℕ)
    (st : NetworkState C Sv) (messages : List C) :
    Option (NetworkState C Sv × List (NetworkEvent C Sv)) :=
  if messages.isEmpty then some (st, [])
  else
    match st.clientSentMessageQueues[clientIndex]? with
    | none => none
    | some inputMessageQueue =>
      some ({ st with clientSentMessageQueues :=
                (st.clientSentMessageQueues.set clientIndex
                  (inputMessageQueue ++ [⟨now + lagMs, messages⟩])) },
            [NetworkEvent.clientSentMessages messages])

/-- The `send` closure of `getNewClientConnection`: an empty batch returns
immediately; otherwise the batch is enqueued onto the recipient client's
queue with its send time, its reference count is incremented, and
`serverSentMessages` is emitted. -/
def clientConnectionSend {C Sv : Type} [DecidableEq Sv] (now : ℚ) (clientIndex : ℕ)
    (st : NetworkState C Sv) (messages : List Sv) :
    Option (NetworkState C Sv × List (NetworkEvent C Sv)) :=
  if messages.isEmpty then some (st, [])
  else
    match st.serverSentMessageQueues[clientIndex]? with
    | none => none
    | some queue =>
      some ({ st with
                serverSentMessageQueues :=
                  (st.serverSentMessageQueues.set clientIndex (queue ++ [⟨now, messages⟩])),
                serverSentMessageReferenceCounts :=
                  (increment st.serverSentMessageReferenceCounts messages) },
            [NetworkEvent.serverSentMessages messages])

/-- The drain loop shared by both `receive` closures (`pullNext` plus the
`while next.length > 0` loop): while the head batch is ready it is dequeued
and its messages appended to the result; a not-yet-ready (or absent) head
stops the drain. `ready` is `readyTime ≤ now` for client-sent batches and
`sendTime + lagMs ≤ now` for server-sent batches. Returns the drained
messages and the remaining queue. (The server-connection variant also
decrements the batch's reference count on dequeue, which does not affect the
queue or the returned messages.) -/
def receiveDrain {M : Type} (ready : TimedBatch M → Bool) :
    List (TimedBatch M) → List M × List (TimedBatch M)
  | [] => ([], [])
  | b :: rest =>
    if ready b then
      if b.msgs.isEmpty then ([], rest)
      else
        let p := receiveDrain ready rest
        (b.msgs ++ p.1, p.2)
    else ([], b :: rest)

/-- The `receive` closure of `getNewConnectionToServer` (drains the
server-sent queue of this client; a batch is ready when its send time plus
the connection's lag has passed). -/
def connectionToServerReceive {M : Type} (now lagMs : ℚ) (queue : List (TimedBatch M)) :
    List M × List (TimedBatch M) :=
  receiveDrain (fun b => decide (b.time + lagMs ≤ now)) queue

/-- The `receive` closure of `getNewClientConnection` (drains the client-sent
queue; a batch is ready when its recorded ready time has passed). -/
def clientConnectionReceive {M : Type} (now : ℚ) (queue : List (TimedBatch M)) :
    List M × List (TimedBatch M) :=
  receiveDrain (fun b => decide (b.time ≤ now)) queue

/-! The client entity synchronizer, from
`src/synchronizers/client/client-entity-synchronizer.ts`. Entities are
mutable objects held (by reference) in up to three collections; here the
authoritative store is the insertion-ordered map `entities : id → state`, and
the sub-collections `interpolatableEntities` / `reckonableEntities` are the
id lists `interpolatableIds` / `reckonableIds` (they always hold the same
objects as `entities`). Entity methods (`applyInput`, `reckon`,
`interpolate`) are the per-entity behavior functions. -/

structure InputMessage (Input : Type) where
  entityId : String
  input : Input
  inputSequenceNumber : ℕ
deriving DecidableEq

structure StateMessageEntity (State : Type) where
  id : String
  state : State
  belongsToRecipientClient : Option Bool
deriving DecidableEq

structure StateMessage (State : Type) where
  entity : StateMessageEntity State
  lastProcessedInputSequenceNumber : ℕ
  timestampMs : ℚ
deriving DecidableEq

inductive SyncStrategy where
  | DeadReckoning
  | Interpolation
  | Raw
deriving DecidableEq

structure EntityBehavior (State Input : Type) where
  applyInput : String → State → Input → State
  reckon : String → State → ℚ → State
  interpolate : String → State → State → ℚ → State

/-- The entity factory handed to the synchronizer. The source's
`CheckedNewEntityHandler` guarantees the created entity's id equals the
message's entity id, so the handler is modelled as producing the created
entity's state (and, for non-local entities, its sync strategy). -/
structure NewEntityHandler (State : Type) where
  createLocalEntityFromStateMessage : StateMessage State → State
  createNonLocalEntityFromStateMessage : StateMessage State → State × SyncStrategy

structure ClientState (State Input : Type) where
  entities : List (String × State)
  interpolatableIds : List String
  reckonableIds : List String
  playerEntityIds : List String
  pendingInputs : List (InputMessage Input)
  entityStateBuffers : List (String × List (Timestamped State))
  currentInputSequenceNumber : ℕ
  lastInputCollectionTimestamp : Option ℚ
deriving DecidableEq

/-- One iteration of the `forEach` in `reconcileLocalStateWithServerState`:
look up the input's entity (throwing if absent) and apply the input to it. -/
def applyPendingInput {State Input : Type} (behavior : EntityBehavior State Input)
    (entities : List (String × State)) (m : InputMessage Input) :
    Option (List (String × State)) :=
  match mapGet entities m.entityId with
  | none => none
  | some s => some (mapSet entities m.entityId (behavior.applyInput m.entityId s m.input))

/-- `reconcileLocalStateWithServerState`: keep only the pending inputs with
sequence number strictly above the server's acknowledgement, then reapply
each of them (in order) to its entity. -/
def reconcileLocalStateWithServerState {State Input : Type}
    (behavior : EntityBehavior State Input) (cs : ClientState State Input)
    (message : StateMessage State) : Option (ClientState State Input) :=
  let pending := cs.pendingInputs.filter
    (fun input => decide (message.lastProcessedInputSequenceNumber < input.inputSequenceNumber))
  (pending.foldlM (applyPendingInput behavior) cs.entities).map
    (fun ents => { cs with pendingInputs := pending, entities := ents })

/-- `updateLocalPlayerState`: when the message's entity belongs to the local
player, adopt the authoritative state and reconcile. (The entity is known to
exist here; the caller checked before dispatching.) -/
def updateLocalPlayerState {State Input : Type} (behavior : EntityBehavior State Input)
    (cs : ClientState State Input) (message : StateMessage State) :
    Option (ClientState State Input) :=
  if message.entity.id ∈ cs.playerEntityIds then
    reconcileLocalStateWithServerState behavior
      { cs with entities := mapSet cs.entities message.entity.id message.entity.state } message
  else some cs

/-- `addNewLocalPlayerEntity`. -/
def addNewLocalPlayerEntity {State Input : Type} (handler : NewEntityHandler State)
    (cs : ClientState State Input) (message : StateMessage State) : ClientState State Input :=
  let created := handler.createLocalEntityFromStateMessage message
  { cs with playerEntityIds := cs.playerEntityIds ++ [message.entity.id],
            entities := mapSet cs.entities message.entity.id created }

/-- `addNewNonLocalPlayerEntity`: add the entity, give it an empty state
buffer, then classify it by its sync strategy. -/
def addNewNonLocalPlayerEntity {State Input : Type} (handler : NewEntityHandler State)
    (cs : ClientState State Input) (message : StateMessage State) : ClientState State Input :=
  let created := handler.createNonLocalEntityFromStateMessage message
  let cs1 := { cs with entities := mapSet cs.entities message.entity.id created.1,
                       entityStateBuffers := mapSet cs.entityStateBuffers message.entity.id [] }
  match created.2 with
  | SyncStrategy.DeadReckoning =>
    { cs1 with reckonableIds := cs1.reckonableIds ++ [message.entity.id] }
  | SyncStrategy.Interpolation =>
    { cs1 with interpolatableIds := cs1.interpolatableIds ++ [message.entity.id] }
  | SyncStrategy.Raw => cs1

/-- `handleNewEntity` from `processServerMessages` (the source checks the
message's `belongsToRecipientClient` flag for both null and truth). -/
def handleNewEntity {State Input : Type} (handler : NewEntityHandler State)
    (cs : ClientState State Input) (message : StateMessage State) : ClientState State Input :=
  if message.entity.belongsToRecipientClient = some true then
    addNewLocalPlayerEntity handler cs message
  else addNewNonLocalPlayerEntity handler cs message

/-- `reckonIfReckoningEntity`: if the entity is in the dead-reckoning
collection, advance it by the message's age. -/
def reckonIfReckoningEntity {State Input : Type} (now : ℚ)
    (behavior : EntityBehavior State Input) (cs : ClientState State Input)
    (message : StateMessage State) : ClientState State Input :=
  if message.entity.id ∈ cs.reckonableIds then
    match mapGet cs.entities message.entity.id with
    | some s =>
      { cs with entities := (mapSet cs.entities message.entity.id
          (behavior.reckon message.entity.id s (now - message.timestampMs))) }
    | none => cs
  else cs

/-- `appendStateOntoBuffer`: record the received state with the receipt time;
a missing buffer is a thrown error. -/
def appendStateOntoBuffer {State Input : Type} (now : ℚ) (cs : ClientState State Input)
    (entityId : String) (state : State) : Option (ClientState State Input) :=
  match mapGet cs.entityStateBuffers entityId with
  | none => none
  | some stateBuffer =>
    some { cs with entityStateBuffers :=
             mapSet cs.entityStateBuffers entityId (stateBuffer ++ [⟨now, state⟩]) }

/-- `appendStateOntoBufferIfInterpolatingEntity`. -/
def appendStateOntoBufferIfInterpolatingEntity {State Input : Type} (now : ℚ)
    (cs : ClientState State Input) (message : StateMessage State) :
    Option (ClientState State Input) :=
  if message.entity.id ∈ cs.interpolatableIds then
    appendStateOntoBuffer now cs message.entity.id message.entity.state
  else some cs

/-- The body of the `for` loop in `processServerMessages`, handling one
`StateMessage`: instantiate the entity when seen for the first time, fail if
it still does not exist, adopt + reconcile when locally owned, then the
dead-reckoning and interpolation-buffer steps. -/
def processStateMessage {State Input : Type} (now : ℚ)
    (behavior : EntityBehavior State Input) (handler : NewEntityHandler State)
    (cs : ClientState State Input) (message : StateMessage State) :
    Option (ClientState State Input) :=
  let cs1 := if cs.entities.any (fun p => decide (p.1 = message.entity.id)) then cs
             else handleNewEntity handler cs message
  match mapGet cs1.entities message.entity.id with
  | none => none
  | some _ => do
    let cs2 ← updateLocalPlayerState behavior cs1 message
    let cs3 := reckonIfReckoningEntity now behavior cs2 message
    appendStateOntoBufferIfInterpolatingEntity now cs3 message

structure EntityBoundInput (Input : Type) where
  entityId : String
  input : Input
deriving DecidableEq

/-- One iteration of the `forEach` in `processInputs`: build the input
message with the current (batch-wide) sequence number, send it (collected in
the second component), predict locally by applying the input to the entity
(throwing when the entity is unknown), and save the message for later
reconciliation. -/
def processInputsStep {State Input : Type} (behavior : EntityBehavior State Input)
    (acc : ClientState State Input × List (InputMessage Input))
    (input : EntityBoundInput Input) :
    Option (ClientState State Input × List (InputMessage Input)) :=
  let inputMessage : InputMessage Input :=
    ⟨input.entityId, input.input, acc.1.currentInputSequenceNumber⟩
  let sent := acc.2 ++ [inputMessage]
  match mapGet acc.1.entities input.entityId with
  | none => none
  | some s =>
    some ({ acc.1 with
              entities := (mapSet acc.1.entities input.entityId
                (behavior.applyInput input.entityId s input.input)),
              pendingInputs := acc.1.pendingInputs ++ [inputMessage] },
          sent)

/-- `processInputs`: collect this tick's entity-bound inputs (handing the
collection strategy the time elapsed since the previous collection), process
each of them, and bump the sequence number exactly when the batch was
non-empty. Returns the updated client state together with the input messages
sent to the server, in send order. -/
def processInputs {State Input : Type} (now : ℚ) (behavior : EntityBehavior State Input)
    (getInputsFromStrategy : ℚ → List (EntityBoundInput Input))
    (cs : ClientState State Input) :
    Option (ClientState State Input × List (InputMessage Input)) :=
  let lastInputCollectionTime := cs.lastInputCollectionTimestamp.getD now
  let timeSinceLastInputCollection := now - lastInputCollectionTime
  let cs0 := { cs with lastInputCollectionTimestamp := some now }
  let entityBoundInputs := getInputsFromStrategy timeSinceLastInputCollection
  (entityBoundInputs.foldlM (processInputsStep behavior) (cs0, [])).map
    (fun acc =>
      if entityBoundInputs.length > 0 then
        ({ acc.1 with currentInputSequenceNumber := acc.1.currentInputSequenceNumber + 1 },
         acc.2)
      else acc)

/-! `interpolateEntities`. -/

/-- The render timestamp: `now - 1000 / serverUpdateRateInHz`. -/
def renderTimestampAt (now serverUpdateRateInHz : ℚ) : ℚ :=
  now - 1000 / serverUpdateRateInHz

/-- The `while` loop of `interpolateEntities` that drops buffered positions
older than the render timestamp (`buffer.shift()` while the second entry is
already at or before it). -/
def dropOlderPositions {State : Type} (renderTimestamp : ℚ) :
    List (Timestamped State) → List (Timestamped State)
  | a :: b :: rest =>
    if b.timestamp ≤ renderTimestamp then dropOlderPositions renderTimestamp (b :: rest)
    else a :: b :: rest
  | l => l

/-- The body of the `forEach` in `interpolateEntities`, for one
interpolatable entity: entities owned by the local player are skipped; a
missing state buffer throws; otherwise stale entries are dropped and, when
two buffered states bracket the render timestamp, the entity state becomes
their interpolation at the elapsed-time ratio. Returns the new entity state
and the new buffer contents. -/
def interpolateEntityStep {State Input : Type} (behavior : EntityBehavior State Input)
    (playerEntityIds : List String) (renderTimestamp : ℚ) (entityId : String)
    (entityState : State) (stateBuffer? : Option (List (Timestamped State))) :
    Option (State × Option (List (Timestamped State))) :=
  if entityId ∈ playerEntityIds then some (entityState, stateBuffer?)
  else
    match stateBuffer? with
    | none => none
    | some stateBuffer =>
      match dropOlderPositions renderTimestamp stateBuffer with
      | b0 :: b1 :: rest =>
        if b0.timestamp ≤ renderTimestamp ∧ renderTimestamp ≤ b1.timestamp then
          some (behavior.interpolate entityId b0.value b1.value
                  ((renderTimestamp - b0.timestamp) / (b1.timestamp - b0.timestamp)),
                some (b0 :: b1 :: rest))
        else some (entityState, some (b0 :: b1 :: rest))
      | dropped => some (entityState, some dropped)

/-- `interpolateEntities`: run the per-entity step over every entity of the
interpolation collection, writing back the resulting entity state and
buffer. -/
def interpolateEntities {State Input : Type} (now serverUpdateRateInHz : ℚ)
    (behavior : EntityBehavior State Input) (cs : ClientState State Input) :
    Option (ClientState State Input) :=
  let renderTimestamp := renderTimestampAt now serverUpdateRateInHz
  cs.interpolatableIds.foldlM
    (fun c entityId =>
      match mapGet c.entities entityId with
      | none => none
      | some entityState => do
        let r ← interpolateEntityStep behavior c.playerEntityIds renderTimestamp entityId
                  entityState (mapGet c.entityStateBuffers entityId)
        some { c with
                 entities := (mapSet c.entities entityId r.1),
                 entityStateBuffers :=
                   (match r.2 with
                    | some b => mapSet c.entityStateBuffers entityId b
                    | none => c.entityStateBuffers) })
    cs

/-! Theorems. -/

/-- C9: in the source's `decrementOrRemove`, an entry stored with count `1`
is deleted and then re-set to `value - 1`, so after the call the key is still
present in the map with value `0` rather than being removed; an entry with a
count greater than `1` simply becomes `value - 1`. -/
theorem decrementOrRemove_leaves_zero_entry {K : Type} [DecidableEq K]
    (map : List (K × Int)) (key : K) (value : Int)
    (hget : mapGet map key = some value) :
    ∃ map2, decrementOrRemove map key = some map2 ∧
      mapGet map2 key = some (value - 1) ∧
      (value = 1 → mapGet map2 key = some 0) := by
  refine ⟨_, by rw [decrementOrRemove, hget], mapGet_mapSet_self _ _ _, ?_⟩
  intro h1
  rw [h1]
  simpa using mapGet_mapSet_self (if (1 : Int) = 1 then mapDelete map key else map) key 0

/-- Witness for C9: a reference count of `1`, decremented, is left in the map
as a `0` entry. -/
theorem decrementOrRemove_leaves_zero_entry_witness :
    ∃ map2, decrementOrRemove [((0 : ℕ), (1 : Int))] 0 = some map2 ∧
      mapGet map2 0 = some (1 - 1) ∧ ((1 : Int) = 1 → mapGet map2 0 = some 0) :=
  decrementOrRemove_leaves_zero_entry [((0 : ℕ), (1 : Int))] 0 1 (by decide)

/-- C10: sending an empty batch on either kind of in-memory connection is a
complete no-op: the network state — queues, recorded ready/send times (kept
with the queued batches) and reference counts — is unchanged, and no
`clientSentMessages` / `serverSentMessages` event is emitted. -/
theorem send_empty_batch_noop {C Sv : Type} [DecidableEq Sv] (now lagMs : ℚ)
    (clientIndex : ℕ) (st : NetworkState C Sv) :
    connectionToServerSend now lagMs clientIndex st [] = some (st, []) ∧
    clientConnectionSend now clientIndex st [] = some (st, []) :=
  ⟨rfl, rfl⟩

/-- C2: a lag-compensation request whose history slice is empty, or which the
request validator rejects, makes `processRequest` return `false` and leaves
the server history completely unchanged (no rewrite is performed). -/
theorem processRequest_rejected_leaves_history {State Payload : Type}
    (lc : LagCompensator State Payload) (request : LcRequest Payload)
    (serverHistory : List (Timestamped State)) (clientLatency : ℚ)
    (hrej : slice serverHistory request.timestamp = [] ∨
            lc.requestValidator request serverHistory clientLatency = false) :
    processRequest lc request serverHistory clientLatency = some (false, serverHistory) := by
  cases hs : slice serverHistory request.timestamp with
  | nil => simp [processRequest, hs]
  | cons g rest =>
    have hv : lc.requestValidator request serverHistory clientLatency = false := by
      rcases hrej with h | h
      · rw [hs] at h
        exact absurd h (by simp)
      · exact h
    simp [processRequest, hs, hv]

/-- A concrete lag compensator whose validator always rejects. -/
def lcRejectW : LagCompensator Int Unit where
  resimmer := fun ctx => ctx.newPreviousState.value
  requestApplicator := fun s _ => s + 100
  requestValidator := fun _ _ _ => false

/-- A concrete lag compensator that always accepts; its resimulator carries
the newly computed previous state forward. -/
def lcAcceptW : LagCompensator Int Unit where
  resimmer := fun ctx => ctx.newPreviousState.value
  requestApplicator := fun s _ => s + 100
  requestValidator := fun _ _ _ => true

def historyW : List (Timestamped Int) := [⟨100, 0⟩, ⟨110, 1⟩, ⟨120, 2⟩, ⟨130, 3⟩]

/-- Witness for C2: a rejected request leaves the concrete history as it
was. -/
theorem processRequest_rejected_leaves_history_witness :
    processRequest lcRejectW ⟨110, ()⟩ historyW 50 = some (false, historyW) :=
  processRequest_rejected_leaves_history lcRejectW ⟨110, ()⟩ historyW 50 (Or.inr rfl)

/-- C7: `receive` on the in-memory transport yields messages in send order:
it drains, in FIFO order, exactly the consecutive head batches that are ready
(`readyTime ≤ now` for a client connection, `sendTime + lag ≤ now` for a
connection to the server), and a not-yet-ready head batch stops the drain so
no later batch overtakes it. Holds whenever the queue contains no empty
batches, which `send` guarantees by refusing empty batches. -/
theorem receiveDrain_fifo {M : Type} (ready : TimedBatch M → Bool)
    (queue : List (TimedBatch M)) (hne : ∀ b ∈ queue, b.msgs ≠ []) :
    receiveDrain ready queue =
      (((queue.takeWhile ready).map (fun b => b.msgs)).flatten, queue.dropWhile ready) := by
  induction queue with
  | nil => rfl
  | cons b rest ih =>
    by_cases hr : ready b = true
    · have hbm : b.msgs.isEmpty = false := by
        cases h : b.msgs.isEmpty
        · rfl
        · exact absurd (List.isEmpty_iff.mp h) (hne b (by simp))
      have ih2 := ih (fun x hx => hne x (by simp [hx]))
      simp [receiveDrain, hr, hbm, ih2, List.takeWhile_cons, List.dropWhile_cons]
    · replace hr : ready b = false := by
        cases h : ready b
        · rfl
        · exact absurd h hr
      simp [receiveDrain, hr, List.takeWhile_cons, List.dropWhile_cons]

def queueW : List (TimedBatch ℕ) := [⟨0, [1]⟩, ⟨5, [2]⟩, ⟨200, [3]⟩]

/-- Witness for C7: at `now = 100` the two ready head batches are drained in
order and the not-yet-ready batch stays queued. -/
theorem receiveDrain_fifo_witness :
    receiveDrain (fun b => decide (b.time ≤ (100 : ℚ))) queueW =
      (((queueW.takeWhile (fun b => decide (b.time ≤ (100 : ℚ)))).map (fun b => b.msgs)).flatten,
       queueW.dropWhile (fun b => decide (b.time ≤ (100 : ℚ)))) :=
  receiveDrain_fifo _ queueW (by decide)

/-- C5: for an interpolatable remote entity whose state buffer, after
dropping stale entries, has two entries bracketing the render timestamp
`now - 1000 / serverUpdateRateInHz`, the entity is set to the interpolation
of the two bracketing states at the elapsed-time ratio; and interpolation is
performed only when the render timestamp lies between the two bracketing
timestamps (otherwise the entity state is untouched). -/
theorem interpolateEntityStep_bracketing {State Input : Type}
    (behavior : EntityBehavior State Input) (playerEntityIds : List String)
    (now serverUpdateRateInHz renderTimestamp : ℚ) (entityId : String) (entityState : State)
    (stateBuffer : List (Timestamped State)) (b0 b1 : Timestamped State)
    (rest : List (Timestamped State))
    (_hr : renderTimestamp = renderTimestampAt now serverUpdateRateInHz)
    (hremote : entityId ∉ playerEntityIds)
    (hdrop : dropOlderPositions renderTimestamp stateBuffer = b0 :: b1 :: rest) :
    (b0.timestamp ≤ renderTimestamp ∧ renderTimestamp ≤ b1.timestamp →
      interpolateEntityStep behavior playerEntityIds renderTimestamp entityId entityState
          (some stateBuffer) =
        some (behavior.interpolate entityId b0.value b1.value
                ((renderTimestamp - b0.timestamp) / (b1.timestamp - b0.timestamp)),
              some (b0 :: b1 :: rest))) ∧
    (¬ (b0.timestamp ≤ renderTimestamp ∧ renderTimestamp ≤ b1.timestamp) →
      interpolateEntityStep behavior playerEntityIds renderTimestamp entityId entityState
          (some stateBuffer) =
        some (entityState, some (b0 :: b1 :: rest))) := by
  constructor <;> intro hb <;> simp [interpolateEntityStep, hremote, hdrop, hb]

/-- A concrete entity behavior over rational states: additive inputs and
linear interpolation. -/
def behaviorQ : EntityBehavior ℚ ℚ where
  applyInput := fun _ s i => s + i
  reckon := fun _ s _ => s
  interpolate := fun _ a b ratio => a + (b - a) * ratio

/-- Witness for C5, the spec's interpolation scenario: snapshots `(100, 0)`
and `(200, 10)` with `now = 250` and a 10 Hz server rate give render
timestamp `150` and the interpolation at ratio `1/2`. -/
theorem interpolateEntityStep_bracketing_witness :
    interpolateEntityStep behaviorQ [] 150 "e1" 0
        (some [⟨100, 0⟩, ⟨200, 10⟩]) =
      some (behaviorQ.interpolate "e1" (0 : ℚ) 10 ((150 - 100) / (200 - 100)),
            some [⟨100, 0⟩, ⟨200, 10⟩]) :=
  (interpolateEntityStep_bracketing behaviorQ [] 250 10 150 "e1" 0
      [⟨100, 0⟩, ⟨200, 10⟩] ⟨100, 0⟩ ⟨200, 10⟩ [] (by norm_num [renderTimestampAt])
      (by decide) (by decide)).1
    (by decide)

theorem reconcile_pendingInputs_eq_filter {State Input : Type}
    (behavior : EntityBehavior State Input) (cs cs1 : ClientState State Input)
    (message : StateMessage State)
    (h : reconcileLocalStateWithServerState behavior cs message = some cs1) :
    cs1.pendingInputs = cs.pendingInputs.filter
      (fun input =>
        decide (message.lastProcessedInputSequenceNumber < input.inputSequenceNumber)) := by
  simp only [reconcileLocalStateWithServerState] at h
  rcases Option.map_eq_some'.mp h with ⟨ents, _, hcs1⟩
  rw [← hcs1]

/-- C8: reconciliation's pending-input filtering is idempotent — processing a
second `StateMessage` carrying the same `lastProcessedInputSequenceNumber` as
an already-processed one leaves the pending-input sequence unchanged, since
every retained input already has a strictly greater sequence number. -/
theorem reconcile_ack_idempotent {State Input : Type}
    (behavior : EntityBehavior State Input) (cs cs1 cs2 : ClientState State Input)
    (m1 m2 : StateMessage State)
    (hack : m2.lastProcessedInputSequenceNumber = m1.lastProcessedInputSequenceNumber)
    (h1 : reconcileLocalStateWithServerState behavior cs m1 = some cs1)
    (h2 : reconcileLocalStateWithServerState behavior cs1 m2 = some cs2) :
    cs2.pendingInputs = cs1.pendingInputs := by
  rw [reconcile_pendingInputs_eq_filter behavior cs cs1 m1 h1,
      reconcile_pendingInputs_eq_filter behavior cs1 cs2 m2 h2,
      reconcile_pendingInputs_eq_filter behavior cs cs1 m1 h1, hack, List.filter_filter]
  simp

/-- A concrete entity behavior over integer states with additive inputs. -/
def behaviorW : EntityBehavior Int Int where
  applyInput := fun _ s i => s + i
  reckon := fun _ s _ => s
  interpolate := fun _ a _ _ => a

def csW : ClientState Int Int where
  entities := [("p1", 0)]
  interpolatableIds := []
  reckonableIds := []
  playerEntityIds := ["p1"]
  pendingInputs := [⟨"p1", 10, 1⟩, ⟨"p1", 20, 2⟩]
  entityStateBuffers := []
  currentInputSequenceNumber := 3
  lastInputCollectionTimestamp := none

def m1W : StateMessage Int := ⟨⟨"p1", 5, some true⟩, 1, 100⟩

def csW1 : ClientState Int Int :=
  (reconcileLocalStateWithServerState behaviorW csW m1W).getD csW

def csW2 : ClientState Int Int :=
  (reconcileLocalStateWithServerState behaviorW csW1 m1W).getD csW

/-- Witness for C8: reconciling twice against the same acknowledgement keeps
the pending inputs of the first reconciliation. -/
theorem reconcile_ack_idempotent_witness : csW2.pendingInputs = csW1.pendingInputs :=
  reconcile_ack_idempotent behaviorW csW csW1 csW2 m1W m1W rfl rfl rfl

theorem processInputs_loop_spec {State Input : Type} (behavior : EntityBehavior State Input)
    (inputs : List (EntityBoundInput Input)) :
    ∀ (c : ClientState State Input) (sent0 : List (InputMessage Input))
      (c1 : ClientState State Input) (sent1 : List (InputMessage Input)),
      inputs.foldlM (processInputsStep behavior) (c, sent0) = some (c1, sent1) →
      c1.currentInputSequenceNumber = c.currentInputSequenceNumber ∧
      c1.lastInputCollectionTimestamp = c.lastInputCollectionTimestamp ∧
      sent1.length = sent0.length + inputs.length ∧
      ∀ m ∈ sent1, m ∈ sent0 ∨ m.inputSequenceNumber = c.currentInputSequenceNumber := by
  induction inputs with
  | nil =>
    intro c sent0 c1 sent1 h
    simp only [List.foldlM_nil] at h
    have h' : (c, sent0) = (c1, sent1) := Option.some.inj h
    have hc : c1 = c := (congrArg Prod.fst h').symm
    have hs : sent1 = sent0 := (congrArg Prod.snd h').symm
    subst hc
    subst hs
    exact ⟨rfl, rfl, by simp, fun m hm => Or.inl hm⟩
  | cons i rest ih =>
    intro c sent0 c1 sent1 h
    rw [List.foldlM_cons] at h
    cases hstep : processInputsStep behavior (c, sent0) i with
    | none => rw [hstep] at h; exact absurd h (by simp)
    | some acc =>
      rw [hstep] at h
      replace h : rest.foldlM (processInputsStep behavior) acc = some (c1, sent1) := h
      obtain ⟨c', sent'⟩ := acc
      obtain ⟨hseq, hlast, hlen, hmem⟩ := ih c' sent' c1 sent1 h
      simp only [processInputsStep] at hstep
      cases hget : mapGet c.entities i.entityId with
      | none => rw [hget] at hstep; exact absurd hstep (by simp)
      | some s =>
        rw [hget] at hstep
        simp only [Option.some.injEq, Prod.mk.injEq] at hstep
        obtain ⟨hc', hsent'⟩ := hstep
        constructor
        · rw [hseq, ← hc']
        constructor
        · rw [hlast, ← hc']
        constructor
        · rw [hlen, ← hsent']
          simp only [List.length_append, List.length_cons, List.length_nil]
          omega
        · intro m hm
          rcases hmem m hm with hm0 | hm1
          · rw [← hsent'] at hm0
            rcases List.mem_append.mp hm0 with hl | hr
            · exact Or.inl hl
            · right
              rw [List.mem_singleton.mp hr]
          · right
            rw [hm1, ← hc']

/-- C6: every input message in one `processInputs` batch carries the same
`inputSequenceNumber` (the current one), the batch has one message per
collected input, and `currentInputSequenceNumber` is incremented by exactly
one if and only if the batch is non-empty (an empty batch sends nothing and
leaves the sequence number unchanged). -/
theorem processInputs_one_seq_number_per_batch {State Input : Type} (now : ℚ)
    (behavior : EntityBehavior State Input)
    (getInputsFromStrategy : ℚ → List (EntityBoundInput Input))
    (cs cs2 : ClientState State Input) (sent : List (InputMessage Input))
    (hrun : processInputs now behavior getInputsFromStrategy cs = some (cs2, sent)) :
    (∀ m ∈ sent, m.inputSequenceNumber = cs.currentInputSequenceNumber) ∧
    sent.length = (getInputsFromStrategy (now - cs.lastInputCollectionTimestamp.getD now)).length ∧
    (sent = [] → cs2.currentInputSequenceNumber = cs.currentInputSequenceNumber) ∧
    (sent ≠ [] → cs2.currentInputSequenceNumber = cs.currentInputSequenceNumber + 1) := by
  simp only [processInputs] at hrun
  rcases Option.map_eq_some'.mp hrun with ⟨acc, hfold, hout⟩
  obtain ⟨c1, sent1⟩ := acc
  obtain ⟨hseq, -, hlen, hmem⟩ :=
    processInputs_loop_spec behavior _ _ _ _ _ hfold
  simp only [List.length_nil, Nat.zero_add] at hlen
  by_cases hpos :
      (getInputsFromStrategy (now - cs.lastInputCollectionTimestamp.getD now)).length > 0
  · rw [if_pos hpos] at hout
    have hc2 := congrArg Prod.fst hout
    dsimp only at hc2
    have hsent : sent1 = sent := congrArg Prod.snd hout
    subst hsent
    refine ⟨fun m hm => ?_, hlen, fun hnil => ?_, fun _ => ?_⟩
    · rcases hmem m hm with h0 | h1
      · exact absurd h0 (List.not_mem_nil m)
      · exact h1
    · exfalso
      rw [hnil] at hlen
      simp at hlen
      omega
    · rw [← hc2]
      simp [hseq]
  · rw [if_neg hpos] at hout
    have hc2 : c1 = cs2 := congrArg Prod.fst hout
    have hsent : sent1 = sent := congrArg Prod.snd hout
    subst hsent
    have hnil : sent1 = [] := by
      have hz : (getInputsFromStrategy (now - cs.lastInputCollectionTimestamp.getD now)).length = 0 := by
        omega
      rw [hz] at hlen
      exact List.length_eq_zero.mp hlen
    refine ⟨fun m hm => ?_, hlen, fun _ => ?_, fun hne => absurd hnil hne⟩
    · rw [hnil] at hm
      exact absurd hm (List.not_mem_nil m)
    · rw [← hc2, hseq]

def getInputsW : ℚ → List (EntityBoundInput Int) := fun _ => [⟨"p1", 10⟩, ⟨"p1", 20⟩]

def piW : ClientState Int Int × List (InputMessage Int) :=
  (processInputs 100 behaviorW getInputsW csW).getD (csW, [])

/-- Witness for C6: a concrete two-input batch produces two messages and
bumps the sequence number by one. -/
theorem processInputs_one_seq_number_per_batch_witness :
    piW.2.length = (getInputsW (100 - csW.lastInputCollectionTimestamp.getD 100)).length ∧
    piW.1.currentInputSequenceNumber = csW.currentInputSequenceNumber + 1 :=
  ⟨(processInputs_one_seq_number_per_batch 100 behaviorW getInputsW csW piW.1 piW.2 rfl).2.1,
   (processInputs_one_seq_number_per_batch 100 behaviorW getInputsW csW piW.1 piW.2 rfl).2.2.2
     (by decide)⟩

theorem rewrite_map_timestamp {State : Type} (history : List (Timestamped State)) (ts : ℚ)
    (s : State) (history2 : List (Timestamped State))
    (hrw : rewrite history ts s = some history2) :
    history2.map (fun e => e.timestamp) = history.map (fun e => e.timestamp) := by
  induction history generalizing history2 with
  | nil => exact absurd hrw (by simp [rewrite])
  | cons e rest ih =>
    by_cases he : e.timestamp = ts
    · simp only [rewrite, if_pos he, Option.some.injEq] at hrw
      rw [← hrw]
      simp [he]
    · simp only [rewrite, if_neg he, Option.map_eq_some'] at hrw
      obtain ⟨r, hr, hh⟩ := hrw
      rw [← hh]
      simp [ih r hr]

theorem rewriteAll_map_timestamp {State : Type} (updates : List (Timestamped State)) :
    ∀ history history2 : List (Timestamped State),
      updates.foldlM (fun h st => rewrite h st.timestamp st.value) history = some history2 →
      history2.map (fun e => e.timestamp) = history.map (fun e => e.timestamp) := by
  induction updates with
  | nil =>
    intro history history2 hh
    simp only [List.foldlM_nil] at hh
    rw [← Option.some.inj hh]
  | cons u rest ih =>
    intro history history2 hh
    rw [List.foldlM_cons] at hh
    cases hr : rewrite history u.timestamp u.value with
    | none => rw [hr] at hh; exact absurd hh (by simp)
    | some h1 =>
      rw [hr] at hh
      replace hh : rest.foldlM (fun h st => rewrite h st.timestamp st.value) h1 = some history2 :=
        hh
      exact (ih h1 history2 hh).trans (rewrite_map_timestamp _ _ _ _ hr)

/-- C4: for every lag-compensation request accepted by `processRequest`, the
sequence (hence the set) of timestamps in the server history is exactly the
same after the rewrites as before — every rewritten entry reuses the
timestamp of the corresponding old frame — and the number of history frames
is unchanged. -/
theorem processRequest_preserves_timestamps {State Payload : Type}
    (lc : LagCompensator State Payload) (request : LcRequest Payload)
    (serverHistory : List (Timestamped State)) (clientLatency : ℚ)
    (newHistory : List (Timestamped State))
    (hacc : processRequest lc request serverHistory clientLatency = some (true, newHistory)) :
    newHistory.map (fun e => e.timestamp) = serverHistory.map (fun e => e.timestamp) ∧
    newHistory.length = serverHistory.length := by
  unfold processRequest at hacc
  cases hs : slice serverHistory request.timestamp with
  | nil =>
    rw [hs] at hacc
    exact absurd (Option.some.inj hacc) (by simp)
  | cons g rest =>
    rw [hs] at hacc
    dsimp only at hacc
    by_cases hv : lc.requestValidator request serverHistory clientLatency = true
    · rw [if_pos hv] at hacc
      rcases Option.map_eq_some'.mp hacc with ⟨h1, hf, heq⟩
      have hh1 : h1 = newHistory := congrArg Prod.snd heq
      subst hh1
      have hmap := rewriteAll_map_timestamp _ _ _ hf
      refine ⟨hmap, ?_⟩
      have := congrArg List.length hmap
      simpa using this
    · rw [if_neg hv] at hacc
      exact absurd (Option.some.inj hacc) (by simp)

def prW : Bool × List (Timestamped Int) :=
  (processRequest lcAcceptW ⟨110, ()⟩ historyW 50).getD (false, [])

/-- Witness for C4: an accepted request on the concrete history keeps its
timestamps and length. -/
theorem processRequest_preserves_timestamps_witness :
    prW.2.map (fun e => e.timestamp) = historyW.map (fun e => e.timestamp) ∧
    prW.2.length = historyW.length :=
  processRequest_preserves_timestamps lcAcceptW ⟨110, ()⟩ historyW 50 prW.2 rfl

theorem resimulateLoop_length {State Payload : Type} (lc : LagCompensator State Payload) :
    ∀ (rest : List (Timestamped State)) (oldPrev newPrev : Timestamped State),
      (resimulateLoop lc oldPrev newPrev rest).length = rest.length := by
  intro rest
  induction rest with
  | nil => intro _ _; rfl
  | cons c rs ih =>
    intro oldPrev newPrev
    simp only [resimulateLoop, List.length_cons, ih]

theorem resimulateLoop_getElem {State Payload : Type} (lc : LagCompensator State Payload) :
    ∀ (rest : List (Timestamped State)) (oldPrev newPrev : Timestamped State) (i : ℕ)
      (fp np fc : Timestamped State),
      (oldPrev :: rest)[i]? = some fp →
      (newPrev :: resimulateLoop lc oldPrev newPrev rest)[i]? = some np →
      rest[i]? = some fc →
      (resimulateLoop lc oldPrev newPrev rest)[i]? =
        some ⟨fc.timestamp, lc.resimmer ⟨fp, np, fc⟩⟩ := by
  intro rest
  induction rest with
  | nil =>
    intro oldPrev newPrev i fp np fc _ _ hfc
    exact absurd hfc (by simp)
  | cons c rs ih =>
    intro oldPrev newPrev i fp np fc hfp hnp hfc
    cases i with
    | zero =>
      simp only [List.getElem?_cons_zero, Option.some.injEq] at hfp hnp hfc
      subst hfp
      subst hnp
      subst hfc
      simp [resimulateLoop]
    | succ j =>
      rw [List.getElem?_cons_succ] at hfp hnp hfc
      simp only [resimulateLoop] at hnp ⊢
      rw [List.getElem?_cons_succ]
      exact ih c ⟨c.timestamp, lc.resimmer ⟨oldPrev, newPrev, c⟩⟩ j fp np fc hfp hnp hfc

/-- C3: for every lag-compensation request accepted over the sliced frames
(non-empty slice, validator true), the rewrites applied by `processRequest`
are exactly the output of `resimulate`, and that new history satisfies the
recurrence: entry `0` is `(frames[0].timestamp,
requestApplicator(frames[0].state, request))`, and entry `i+1` has timestamp
`frames[i+1].timestamp` and state `resimmer { oldPreviousState := frames[i],
newPreviousState := newHistory[i], oldCurrentState := frames[i+1] }`; when
the slice has exactly one frame only the base entry is produced and the
resimulation loop is not entered. -/
theorem processRequest_accepted_resimulation_recurrence {State Payload : Type}
    (lc : LagCompensator State Payload) (request : LcRequest Payload)
    (serverHistory : List (Timestamped State)) (clientLatency : ℚ)
    (f0 : Timestamped State) (rest : List (Timestamped State))
    (newHistory : List (Timestamped State))
    (hs : slice serverHistory request.timestamp = f0 :: rest)
    (hv : lc.requestValidator request serverHistory clientLatency = true)
    (hnh : newHistory = resimulate lc (f0 :: rest) (lc.requestApplicator f0.value request)) :
    processRequest lc request serverHistory clientLatency =
      (newHistory.foldlM (fun h st => rewrite h st.timestamp st.value) serverHistory).map
        (fun h => (true, h)) ∧
    newHistory.length = (f0 :: rest).length ∧
    newHistory[0]? = some ⟨f0.timestamp, lc.requestApplicator f0.value request⟩ ∧
    (∀ (i : ℕ) (fp np fc : Timestamped State),
      (f0 :: rest)[i]? = some fp → newHistory[i]? = some np →
      (f0 :: rest)[i + 1]? = some fc →
      newHistory[i + 1]? = some ⟨fc.timestamp, lc.resimmer ⟨fp, np, fc⟩⟩) ∧
    (rest = [] → newHistory = [⟨f0.timestamp, lc.requestApplicator f0.value request⟩]) := by
  subst hnh
  refine ⟨?_, ?_, by simp [resimulate], ?_, ?_⟩
  · unfold processRequest
    rw [hs]
    dsimp only
    rw [if_pos hv]
  · simp [resimulate, resimulateLoop_length]
  · intro i fp np fc hfp hnp hfc
    simp only [resimulate] at hnp ⊢
    rw [List.getElem?_cons_succ] at hfc ⊢
    exact resimulateLoop_getElem lc rest f0
      ⟨f0.timestamp, lc.requestApplicator f0.value request⟩ i fp np fc hfp hnp hfc
  · intro hrest
    subst hrest
    rfl

def nhW : List (Timestamped Int) :=
  resimulate lcAcceptW [⟨110, 1⟩, ⟨120, 2⟩, ⟨130, 3⟩] (lcAcceptW.requestApplicator 1 ⟨110, ()⟩)

/-- Witness for C3: on the concrete accepted request, the second entry of the
resimulated history is the resimmer applied to the first old frame, the
newly rewritten base, and the second old frame. -/
theorem processRequest_accepted_resimulation_recurrence_witness :
    nhW[1]? = some ⟨120, lcAcceptW.resimmer ⟨⟨110, 1⟩, ⟨110, 101⟩, ⟨120, 2⟩⟩⟩ :=
  (processRequest_accepted_resimulation_recurrence lcAcceptW ⟨110, ()⟩ historyW 50
      ⟨110, 1⟩ [⟨120, 2⟩, ⟨130, 3⟩] nhW (by decide) rfl rfl).2.2.2.1 0
    ⟨110, 1⟩ ⟨110, 101⟩ ⟨120, 2⟩ rfl rfl rfl

theorem foldlM_applyPendingInput_lookup {State Input : Type}
    (behavior : EntityBehavior State Input) (entityId : String)
    (ms : List (InputMessage Input)) :
    ∀ (entities : List (String × State)) (s : State),
      (∀ m ∈ ms, m.entityId = entityId) →
      mapGet entities entityId = some s →
      ∃ entities2,
        ms.foldlM (applyPendingInput behavior) entities = some entities2 ∧
        mapGet entities2 entityId =
          some (ms.foldl (fun st m => behavior.applyInput entityId st m.input) s) := by
  induction ms with
  | nil =>
    intro entities s _ hget
    exact ⟨entities, rfl, by simpa using hget⟩
  | cons m rest ih =>
    intro entities s hall hget
    have hm : m.entityId = entityId := hall m (by simp)
    have hstep : applyPendingInput behavior entities m =
        some (mapSet entities entityId (behavior.applyInput entityId s m.input)) := by
      simp only [applyPendingInput, hm, hget]
    obtain ⟨entities2, hfold, hlook⟩ := ih
      (mapSet entities entityId (behavior.applyInput entityId s m.input))
      (behavior.applyInput entityId s m.input)
      (fun x hx => hall x (by simp [hx]))
      (mapGet_mapSet_self _ _ _)
    refine ⟨entities2, ?_, ?_⟩
    · rw [List.foldlM_cons, hstep]
      exact hfold
    · rw [List.foldl_cons]
      exact hlook

/-- C1: after `processServerMessages` handles a `StateMessage` for a locally
owned entity, the entity's state equals the fold of `applyInput` over the
authoritative `message.entity.state`, applied to every pending input whose
`inputSequenceNumber` is strictly greater than
`message.lastProcessedInputSequenceNumber`, in ascending sequence order (the
pending queue is kept sorted by sequence number, and reconciliation keeps
exactly the retained inputs, still sorted). Stated for an already-known
local-player entity (which is never in the dead-reckoning or interpolation
collections) whose pending inputs all target it. -/
theorem processStateMessage_owned_state_eq_fold {State Input : Type} (now : ℚ)
    (behavior : EntityBehavior State Input) (handler : NewEntityHandler State)
    (cs cs2 : ClientState State Input) (message : StateMessage State) (s0 : State)
    (howned : message.entity.id ∈ cs.playerEntityIds)
    (hpresent : mapGet cs.entities message.entity.id = some s0)
    (hreck : message.entity.id ∉ cs.reckonableIds)
    (hinterp : message.entity.id ∉ cs.interpolatableIds)
    (hmine : ∀ i ∈ cs.pendingInputs, i.entityId = message.entity.id)
    (hsorted : List.Sorted (fun a b => a.inputSequenceNumber ≤ b.inputSequenceNumber)
      cs.pendingInputs)
    (hrun : processStateMessage now behavior handler cs message = some cs2) :
    mapGet cs2.entities message.entity.id =
      some ((cs.pendingInputs.filter
          (fun input =>
            decide (message.lastProcessedInputSequenceNumber < input.inputSequenceNumber))).foldl
        (fun st input => behavior.applyInput message.entity.id st input.input)
        message.entity.state) ∧
    cs2.pendingInputs = cs.pendingInputs.filter
      (fun input =>
        decide (message.lastProcessedInputSequenceNumber < input.inputSequenceNumber)) ∧
    List.Sorted (fun a b => a.inputSequenceNumber ≤ b.inputSequenceNumber) cs2.pendingInputs := by
  obtain ⟨entities2, hfold, hlook⟩ :=
    foldlM_applyPendingInput_lookup behavior message.entity.id
      (cs.pendingInputs.filter
        (fun input =>
          decide (message.lastProcessedInputSequenceNumber < input.inputSequenceNumber)))
      (mapSet cs.entities message.entity.id message.entity.state)
      message.entity.state
      (fun m hm => hmine m (List.mem_of_mem_filter hm))
      (mapGet_mapSet_self _ _ _)
  have hany := mapGet_some_any _ _ _ hpresent
  have hrecon : reconcileLocalStateWithServerState behavior
      { cs with entities := mapSet cs.entities message.entity.id message.entity.state }
      message =
      some { cs with
               pendingInputs := cs.pendingInputs.filter
                 (fun input =>
                   decide
                     (message.lastProcessedInputSequenceNumber < input.inputSequenceNumber)),
               entities := entities2 } := by
    unfold reconcileLocalStateWithServerState
    dsimp only
    rw [hfold]
    rfl
  have hupd : updateLocalPlayerState behavior cs message =
      some { cs with
               pendingInputs := cs.pendingInputs.filter
                 (fun input =>
                   decide
                     (message.lastProcessedInputSequenceNumber < input.inputSequenceNumber)),
               entities := entities2 } := by
    unfold updateLocalPlayerState
    rw [if_pos howned]
    exact hrecon
  have hmain : processStateMessage now behavior handler cs message =
      some { cs with
               pendingInputs := cs.pendingInputs.filter
                 (fun input =>
                   decide
                     (message.lastProcessedInputSequenceNumber < input.inputSequenceNumber)),
               entities := entities2 } := by
    unfold processStateMessage
    rw [if_pos hany]
    dsimp only
    rw [hpresent]
    dsimp only
    rw [hupd]
    show appendStateOntoBufferIfInterpolatingEntity now
      (reckonIfReckoningEntity now behavior _ message) message = _
    rw [reckonIfReckoningEntity]
    dsimp only
    rw [if_neg hreck]
    rw [appendStateOntoBufferIfInterpolatingEntity]
    dsimp only
    rw [if_neg hinterp]
  rw [hrun] at hmain
  have hcs2 := (Option.some.inj hmain).symm
  subst hcs2
  exact ⟨hlook, rfl, List.Pairwise.filter _ hsorted⟩

def handlerW : NewEntityHandler Int where
  createLocalEntityFromStateMessage := fun m => m.entity.state
  createNonLocalEntityFromStateMessage := fun m => (m.entity.state, SyncStrategy.Raw)

def cpsW : ClientState Int Int where
  entities := [("p1", 1)]
  interpolatableIds := []
  reckonableIds := []
  playerEntityIds := ["p1"]
  pendingInputs := [⟨"p1", 10, 0⟩, ⟨"p1", 20, 1⟩]
  entityStateBuffers := []
  currentInputSequenceNumber := 2
  lastInputCollectionTimestamp := none

def msgW : StateMessage Int := ⟨⟨"p1", 5, some true⟩, 0, 100⟩

def cps2W : ClientState Int Int :=
  (processStateMessage 100 behaviorW handlerW cpsW msgW).getD cpsW

/-- Witness for C1: adopting the authoritative state `5` and reapplying the
single unacknowledged input yields the fold of `applyInput` over the retained
pending inputs. -/
theorem processStateMessage_owned_state_eq_fold_witness :
    mapGet cps2W.entities msgW.entity.id =
      some ((cpsW.pendingInputs.filter
          (fun input =>
            decide (msgW.lastProcessedInputSequenceNumber < input.inputSequenceNumber))).foldl
        (fun st input => behaviorW.applyInput msgW.entity.id st input.input)
        msgW.entity.state) :=
  (processStateMessage_owned_state_eq_fold 100 behaviorW handlerW cpsW cps2W msgW 1
    (by decide) rfl (by decide) (by decide) (by decide) (by decide) rfl).1

end GameSync
